import Mathlib

/-!
Verification development for the coffee/tea Slack bot (`src/app.js`).

The JavaScript source is shallowly embedded: the ledger (Google Sheet rows
read through `values.get` with range `A:E`) is a `List Row`; the
process-wide in-memory maps (`userChoices`, `userMessageRefs`,
`monthlySettled`) are functions with explicit updates; every handler
becomes a pure state-transforming function. JavaScript numeric quirks that
the code can hit (NaN from incrementing a missing object key,
`Math.max(0, NaN)`, falsy checks) are modelled by the `JSNum` type.
External I/O results (the current date, the display name, the ts returned
by `chat.postMessage`, per-user API failures) are passed in as parameters.
-/

/-- Model of a JavaScript number-valued object property: `absent` is reading
a key that is missing from the object, `nan` is NaN, `num q` a finite number
(JS floats are modelled as rationals). -/
inductive JSNum where
  | absent : JSNum
  | nan : JSNum
  | num : ℚ → JSNum
deriving DecidableEq

/-- JS `x++` on an object property (`userChoices[userId][choice]++`,
`summary[userId][choice]++`): a finite number is incremented, an absent key
or NaN becomes NaN. -/
def jsIncr : JSNum → JSNum
  | .num q => .num (q + 1)
  | _ => .nan

/-- JS `Math.max(0, x - 1)` as used in `revokeLastChoice`: on a finite
number the decrement floored at zero, on an absent key or NaN the result is
NaN (`Math.max(0, NaN)` is NaN). -/
def jsDecFloor : JSNum → JSNum
  | .num q => .num (max 0 (q - 1))
  | _ => .nan

/-- JS `x += p` with a finite `p` (`summary[userId].amount += price`). -/
def jsAdd (x : JSNum) (p : ℚ) : JSNum :=
  match x with
  | .num q => .num (q + p)
  | _ => .nan

/-- One spreadsheet cell: either a string or a number. The app writes the
Price column as a JS number (`logChoice` appends `price` RAW) and every
other column as a string; externally edited sheets may hold arbitrary
strings. Reading a numeric cell back and applying `parseFloat` returns the
same finite number (`parseFloat(String(q)) = q`), which is how `num` cells
are consumed below. -/
inductive Cell where
  | str : String → Cell
  | num : ℚ → Cell
deriving DecidableEq

/-- One ledger row of the sheet range `A:E`. Columns: `UserID, UserName,
Date, Choice, Price`; the header itself occupies position 0 of the row
list. -/
structure Row where
  userId : String
  userName : String
  dateStr : String
  choice : String
  price : Cell
deriving DecidableEq

/-- The header row written by `ensureHeaderRow`. -/
def headerRow : Row := ⟨"UserID", "UserName", "Date", "Choice", .str "Price"⟩

/-- JS whitespace (the forms relevant here). -/
def jsWhitespace (c : Char) : Bool :=
  c = ' ' ∨ c = '\t' ∨ c = '\n' ∨ c = '\r'

/-- Longest prefix of decimal digits, returned as digit values. -/
def takeDigits : List Char → List Nat × List Char
  | [] => ([], [])
  | c :: cs =>
    if c.isDigit then
      let p := takeDigits cs
      ((c.toNat - 48) :: p.1, p.2)
    else ([], c :: cs)

/-- Value of a digit list read left to right as an integer. -/
def digitsVal (ds : List Nat) : Nat := ds.foldl (fun a d => a * 10 + d) 0

/-- Optional leading sign of a JS numeric literal; `true` means negative. -/
def parseSign : List Char → Bool × List Char
  | '-' :: t => (true, t)
  | '+' :: t => (false, t)
  | t => (false, t)

/-- Fractional digits after a decimal point, when present. -/
def parseFracPart : List Char → List Nat × List Char
  | '.' :: rest => takeDigits rest
  | cs => ([], cs)

/-- Exponent part of a JS float literal: `e`/`E`, optional sign, digits.
`none` when no well-formed exponent follows (JS then ignores the tail). -/
def parseExp (cs : List Char) : Option Int :=
  match cs with
  | c :: cs1 =>
    if c = 'e' ∨ c = 'E' then
      let p := parseSign cs1
      let d := takeDigits p.2
      if d.1 = [] then none
      else some (if p.1 then -(digitsVal d.1 : Int) else (digitsVal d.1 : Int))
    else none
  | [] => none

/-- Syntactic phase of JS `parseFloat`: skip leading whitespace, optional
sign, longest `digits [. digits] [exponent]` prefix. Returns the sign flag,
integer digits, fraction digits and exponent, or `none` when no digit was
parsed (NaN). Non-finite forms such as `Infinity` are out of scope. -/
def parseFloatParts (s : String) : Option (Bool × List Nat × List Nat × Int) :=
  let cs := s.data.dropWhile jsWhitespace
  let sp := parseSign cs
  let ip := takeDigits sp.2
  let fp := parseFracPart ip.2
  if ip.1 = [] ∧ fp.1 = [] then none
  else some (sp.1, ip.1, fp.1, (parseExp fp.2).getD 0)

/-- Numeric value of a parsed float: `sign * (digits as decimal) * 10^e`. -/
def partsVal (p : Bool × List Nat × List Nat × Int) : ℚ :=
  let mant : ℚ := (digitsVal (p.2.1 ++ p.2.2.1) : ℚ) / ((10 ^ p.2.2.1.length : ℕ) : ℚ)
  let e := p.2.2.2
  let scale : ℚ :=
    if 0 ≤ e then ((10 ^ e.toNat : ℕ) : ℚ) else 1 / ((10 ^ (-e).toNat : ℕ) : ℚ)
  (if p.1 then -1 else 1) * mant * scale

/-- Model of JS `parseFloat`; `none` models NaN. -/
def parseFloat (s : String) : Option ℚ :=
  (parseFloatParts s).map partsVal

/-- All-digit check plus value, for date fields. -/
def digitsToNat (cs : List Char) : Option Nat :=
  if cs ≠ [] ∧ cs.all Char.isDigit then
    some (digitsVal (cs.map (fun c => c.toNat - 48)))
  else none

/-- Model of `new Date(dateStr)` followed by `getFullYear`/`getMonth`,
restricted to the ISO-like `YYYY-MM-DD...` strings the app itself writes
(`new Date().toISOString()`): year and zero-based month of the string, or
`none` when the shape does not match (modelling an invalid date, for which
`isNaN(d.getTime())` is true). Local time is identified with UTC. -/
def parseDateYM (s : String) : Option (Int × Nat) :=
  let y := s.data.span (fun c => c ≠ '-')
  match y.2 with
  | '-' :: rest1 =>
    let m := rest1.span (fun c => c ≠ '-')
    match m.2 with
    | '-' :: _ =>
      match digitsToNat y.1, digitsToNat m.1 with
      | some yv, some mv =>
        if 1 ≤ mv ∧ mv ≤ 12 then some ((yv : Int), mv - 1) else none
      | _, _ => none
    | _ => none
  | _ => none

/-- `parseFloat(row[4] || '0') || 0` from `getUserMonthlySummary` and the
`/monthly_tally` handler: an empty or falsy price cell falls back to the
string "0"; a parse failure (NaN) and `|| 0` both yield 0; a numeric cell
round-trips to its own value. -/
def rowPrice (r : Row) : ℚ :=
  match r.price with
  | .num q => q
  | .str s => (parseFloat (if s = "" then "0" else s)).getD 0

/-- Result record of `getUserMonthlySummary`. -/
structure Summary where
  coffee : Nat
  tea : Nat
  amount : ℚ
deriving DecidableEq

/-- Loop body of `getUserMonthlySummary` for one row: skip on user mismatch,
skip on invalid date, otherwise count the choice and add the price when the
row date is in the target year/month. -/
def summaryStep (userId : String) (targetYear : Int) (targetMonth : Nat)
    (acc : Summary) (r : Row) : Summary :=
  if r.userId ≠ userId then acc
  else
    match parseDateYM r.dateStr with
    | none => acc
    | some ym =>
      if ym.1 = targetYear ∧ ym.2 = targetMonth then
        ⟨acc.coffee + (if r.choice = "coffee" then 1 else 0),
         acc.tea + (if r.choice = "tea" then 1 else 0),
         acc.amount + rowPrice r⟩
      else acc

/-- `getUserMonthlySummary(userId, date)` from `src/app.js`: scan all ledger
rows from index 1 (skipping the header) and accumulate coffee/tea counts
and the price sum over rows of this user dated in the month of `date`.
`targetYear`/`targetMonth` are `date.getFullYear()`/`date.getMonth()`. -/
def getUserMonthlySummary (userId : String) (targetYear : Int)
    (targetMonth : Nat) (rows : List Row) : Summary :=
  (rows.drop 1).foldl (summaryStep userId targetYear targetMonth) ⟨0, 0, 0⟩


/-- Per-user choice object `{ coffee: 0, tea: 0 }` modelled as a JS object
with number-valued properties: a function from property name to `JSNum`,
absent keys reading as `absent`. -/
def ChoiceCounters : Type := String → JSNum

/-- The fresh object `{ coffee: 0, tea: 0 }`. -/
def freshCounters : ChoiceCounters :=
  fun k => if k = "coffee" then .num 0 else if k = "tea" then .num 0 else .absent

/-- Stored reference to the single live DM control message of a user:
`{ channelId, ts, monthKey }`. -/
structure MsgRef where
  channelId : String
  ts : String
  monthKey : String
deriving DecidableEq

/-- Whole mutable state of the process: the ledger rows as currently stored
in the sheet (header, when present, at position 0) plus the three in-memory
maps `userChoices`, `userMessageRefs` and `monthlySettled`. -/
structure AppState where
  rows : List Row
  userChoices : String → Option ChoiceCounters
  userMessageRefs : String → Option MsgRef
  monthlySettled : String → Option (String → Bool)

/-- The state at process start: empty ledger, empty maps. -/
def initialState : AppState :=
  ⟨[], fun _ => none, fun _ => none, fun _ => none⟩

/-- `getCurrentMonthKey`: `String(m + 1).padStart(2, '0')` appended to the
year, e.g. `2024-05`. `month` is the zero-based `date.getMonth()`. -/
def getCurrentMonthKey (year : Int) (month : Nat) : String :=
  let ms := toString (month + 1)
  toString year ++ "-" ++ (if ms.length < 2 then "0" ++ ms else ms)

/-- `ensureHeaderRow`: write the header into row 1 only when the sheet's
first row is missing or entirely blank (every cell falsy or
whitespace-only). -/
def cellBlank : Cell → Bool
  | .str s => s.data.all jsWhitespace
  | .num q => q = 0

/-- Whether a row is treated as empty by `ensureHeaderRow`. -/
def rowIsEmpty (r : Row) : Bool :=
  r.userId.data.all jsWhitespace ∧ r.userName.data.all jsWhitespace ∧
    r.dateStr.data.all jsWhitespace ∧ r.choice.data.all jsWhitespace ∧
    cellBlank r.price

/-- `ensureHeaderRow` on the stored rows. -/
def ensureHeaderRow (rows : List Row) : List Row :=
  match rows with
  | [] => [headerRow]
  | r :: rest => if rowIsEmpty r then headerRow :: rest else r :: rest

/-- `logChoice(userId, choice)`: initialize the user's counter object when
absent, increment the property named by `choice`, then ensure the header
row and append `[userId, userName, new Date().toISOString(), choice,
price]` with the configured price (coffee price for "coffee", tea price
otherwise). `userName` and `dateIso` stand for the awaited display-name
lookup and the current time. -/
def logChoice (coffeePrice teaPrice : ℚ) (userId choice userName dateIso : String)
    (st : AppState) : AppState :=
  let c := (st.userChoices userId).getD freshCounters
  let c1 := Function.update c choice (jsIncr (c choice))
  let price := if choice = "coffee" then coffeePrice else teaPrice
  { st with
    userChoices := Function.update st.userChoices userId (some c1),
    rows := ensureHeaderRow st.rows ++ [⟨userId, userName, dateIso, choice, .num price⟩] }

/-- The backwards scan of `revokeLastChoice`: starting from index `i` and
stopping before index 0, the largest index `≥ 1` whose row's `UserID` cell
equals `userId`, or `-1` when none is found. -/
def lastIdxFrom (userId : String) (rows : List Row) : Nat → Int
  | 0 => -1
  | i + 1 =>
    match rows.get? (i + 1) with
    | some r => if r.userId = userId then ((i + 1 : Nat) : Int) else lastIdxFrom userId rows i
    | none => lastIdxFrom userId rows i

/-- `let lastIndex = -1; for (let i = rows.length - 1; i >= 1; i--) ...` -/
def lastUserRowIndex (userId : String) (rows : List Row) : Int :=
  lastIdxFrom userId rows (rows.length - 1)

/-- `revokeLastChoice(userId)`: find the last row of this user (scanning
indices down to 1), and if one exists decrement the counter property named
by that row's choice (floored at 0) and delete exactly that row
(`deleteDimension` of the single index). Returns `none` when the code
throws: `userChoices[userId][lastChoice]` is read while
`userChoices[userId]` is undefined, a TypeError raised before the delete
request is issued. -/
def revokeLastChoice (userId : String) (st : AppState) : Option AppState :=
  let lastIndex := lastUserRowIndex userId st.rows
  if 0 < lastIndex then
    let li := lastIndex.toNat
    let lastChoice := ((st.rows.get? li).map Row.choice).getD ""
    match st.userChoices userId with
    | none => none
    | some c =>
      let c1 := Function.update c lastChoice (jsDecFloor (c lastChoice))
      some { st with
        userChoices := Function.update st.userChoices userId (some c1),
        rows := st.rows.eraseIdx li }
  else some st

/-- `settled_toggle` handler body: create the month's object when absent and
store `!!selected` for this user. The inner object is modelled as a total
function defaulting to `false`, matching the `!!`-guarded reads. -/
def setSettled (ms : String → Option (String → Bool)) (monthKey userId : String)
    (flag : Bool) : String → Option (String → Bool) :=
  let inner := (ms monthKey).getD (fun _ => false)
  Function.update ms monthKey (some (Function.update inner userId flag))

/-- `!!(monthlySettled[monthKey] && monthlySettled[monthKey][userId])`. -/
def readSettled (ms : String → Option (String → Bool)) (monthKey userId : String) : Bool :=
  match ms monthKey with
  | none => false
  | some inner => inner userId

/-- Fresh per-user entry of the `/monthly_tally` summary object:
`{ coffee: 0, tea: 0, amount: 0 }`, modelled like every JS object with
number-valued properties. -/
def tallyInit : String → JSNum :=
  fun k => if k = "coffee" then .num 0 else if k = "tea" then .num 0
    else if k = "amount" then .num 0 else .absent

/-- One iteration of the `/monthly_tally` `forEach` body (header already
skipped): create the user's entry when absent, `summary[userId][choice]++`,
then `summary[userId].amount += price`. Note the code reads no date cell
and applies no month filter. -/
def tallyRow (summary : String → Option (String → JSNum)) (r : Row) :
    String → Option (String → JSNum) :=
  let entry := (summary r.userId).getD tallyInit
  let e1 := Function.update entry r.choice (jsIncr (entry r.choice))
  let e2 := Function.update e1 "amount" (jsAdd (e1 "amount") (rowPrice r))
  Function.update summary r.userId (some e2)

/-- The summary object the `/monthly_tally` command builds from the ledger
rows (skipping only the header at index 0). -/
def monthlyTally (rows : List Row) : String → Option (String → JSNum) :=
  (rows.drop 1).foldl tallyRow (fun _ => none)

/-- Outbound chat API calls a reconciler invocation can make. -/
inductive Effect where
  | openDm : String → Effect
  | chatUpdate : String → String → Effect
  | chatPost : String → Effect
deriving DecidableEq

/-- `sendOrUpdateControlMessage(userId)`: resolve the DM channel (the stored
one, else `conversations.open`), then either `chat.update` the recorded
message (when a record with a truthy ts for the current month key exists)
or `chat.postMessage` a new one and store `{ channelId, ts, monthKey }`.
`monthKey` is the current month key, `openedChannel` the channel id
`conversations.open` would return, `newTs` the ts `chat.postMessage` would
return. Returns the emitted API calls in order and the new
`userMessageRefs` map. -/
def sendOrUpdateControlMessage (userId monthKey openedChannel newTs : String)
    (refs : String → Option MsgRef) :
    List Effect × (String → Option MsgRef) :=
  let opened : List Effect × String :=
    match refs userId with
    | some r => if r.channelId = "" then ([.openDm userId], openedChannel) else ([], r.channelId)
    | none => ([.openDm userId], openedChannel)
  match refs userId with
  | some r =>
    if r.ts ≠ "" ∧ r.monthKey = monthKey then
      (opened.1 ++ [.chatUpdate opened.2 r.ts], refs)
    else
      (opened.1 ++ [.chatPost opened.2],
        Function.update refs userId (some ⟨opened.2, newTs, monthKey⟩))
  | none =>
    (opened.1 ++ [.chatPost opened.2],
      Function.update refs userId (some ⟨opened.2, newTs, monthKey⟩))

/-- One member of the `users.list` directory, with the fields the broadcast
filter reads. -/
structure DirectoryUser where
  id : String
  isBot : Bool
  deleted : Bool
deriving DecidableEq

/-- Kernel-reducible model of `String.startsWith`: the first string's
characters are a prefix of the second's. -/
def listLeads : List Char → List Char → Bool
  | [], _ => true
  | _ :: _, [] => false
  | a :: as, b :: bs => a = b && listLeads as bs

/-- The broadcast filter:
`!u.is_bot && !u.deleted && u.id && u.id.startsWith('U')`. -/
def broadcastEligible (u : DirectoryUser) : Bool :=
  !u.isBot ∧ !u.deleted ∧ u.id ≠ "" ∧ listLeads "U".data u.id.data

/-- The `for (const u of members)` loop of `broadcastForCurrentMonth`: each
member is DMed inside its own try/catch; `fails` says whether the
`sendOrUpdateControlMessage` call for that user id throws. Returns the ids
messaged successfully and the ids whose failure was caught and logged, in
loop order. -/
def broadcastLoop (fails : String → Bool) : List DirectoryUser → List String × List String
  | [] => ([], [])
  | u :: rest =>
    let p := broadcastLoop fails rest
    if fails u.id then (p.1, u.id :: p.2) else (u.id :: p.1, p.2)

/-- `broadcastForCurrentMonth`: filter the directory, then attempt a DM per
remaining member, catching and logging per-user failures. -/
def broadcastForCurrentMonth (members : List DirectoryUser) (fails : String → Bool) :
    List String × List String :=
  broadcastLoop fails (members.filter broadcastEligible)

/-- A recognized choice kind, as sent by the coffee/tea buttons. -/
inductive Kind where
  | coffee : Kind
  | tea : Kind
deriving DecidableEq

/-- The button value string of a kind. -/
def kindStr : Kind → String
  | .coffee => "coffee"
  | .tea => "tea"

/-- One serialized call of the single-user session: a `recordChoice`
(`logChoice` with a recognized kind, the looked-up display name and the
timestamp of the call) or an `undoLastChoice` (`revokeLastChoice`). -/
inductive Op where
  | record : Kind → String → String → Op
  | undo : Op

/-- Execute one call for user `uid`; `none` models a thrown TypeError. -/
def runOp (coffeePrice teaPrice : ℚ) (uid : String) (st : AppState) : Op → Option AppState
  | .record k userName dateIso =>
    some (logChoice coffeePrice teaPrice uid (kindStr k) userName dateIso st)
  | .undo => revokeLastChoice uid st

/-- Execute a serialized sequence of calls, stopping at a thrown error. -/
def runOps (coffeePrice teaPrice : ℚ) (uid : String) (st : AppState) :
    List Op → Option AppState
  | [] => some st
  | op :: rest =>
    match runOp coffeePrice teaPrice uid st op with
    | none => none
    | some st1 => runOps coffeePrice teaPrice uid st1 rest

/-- Number of ledger rows of user `uid` with choice kind `k`. The header
never counts: its Choice cell is the literal "Choice". -/
def rowCountKind (rows : List Row) (uid k : String) : Nat :=
  rows.countP (fun r => decide (r.userId = uid) && decide (r.choice = k))

/-- The consistency property of claim C1: the in-memory counter of each
recognized kind equals the number of ledger rows of that kind for the user;
an absent counter object stands for zero rows. -/
def countersMatch (st : AppState) (uid : String) : Prop :=
  match st.userChoices uid with
  | none => rowCountKind st.rows uid "coffee" = 0 ∧ rowCountKind st.rows uid "tea" = 0
  | some c =>
    c "coffee" = .num (rowCountKind st.rows uid "coffee") ∧
    c "tea" = .num (rowCountKind st.rows uid "tea")

/-- Reachability invariant of the single-user session: the ledger is empty
or starts with the header, every data row of the user carries a recognized
kind, and the counters agree with the ledger. -/
def sessionInv (st : AppState) (uid : String) : Prop :=
  (st.rows = [] ∨ ∃ body, st.rows = headerRow :: body) ∧
  (∀ r ∈ st.rows.drop 1, r.userId = uid → r.choice = "coffee" ∨ r.choice = "tea") ∧
  countersMatch st uid

/-- Whether a row's date parses into the target year and month. -/
def rowInMonth (y : Int) (m : Nat) (r : Row) : Bool :=
  match parseDateYM r.dateStr with
  | some ym => decide (ym.1 = y) && decide (ym.2 = m)
  | none => false

/-- Whether `getUserMonthlySummary` aggregates a row: user match and date in
the target month. -/
def rowMatches (uid : String) (y : Int) (m : Nat) (r : Row) : Bool :=
  decide (r.userId = uid) && rowInMonth y m r

/-- Recognizer for `chat.postMessage` effects. -/
def isPost : Effect → Bool
  | .chatPost _ => true
  | _ => false

/-- Recognizer for `chat.update` effects. -/
def isUpd : Effect → Bool
  | .chatUpdate _ _ => true
  | _ => false

/-- A directory of three eligible users, for the broadcast scenario. -/
def threeUsers : List DirectoryUser :=
  [⟨"U1", false, false⟩, ⟨"U2", false, false⟩, ⟨"U3", false, false⟩]

/-- Ledger used for the month-filter divergence of the tally command: one
coffee row of user U1 dated April 2024. -/
def tallyBugRows : List Row :=
  [headerRow, ⟨"U1", "User One", "2024-04-15T00:00:00.000Z", "coffee", .num 2⟩]

/-- A state whose last U1 row carries the unrecognized kind "beer". -/
def c5State : AppState :=
  ⟨[headerRow, ⟨"U1", "User One", "2024-05-17T10:00:00.000Z", "beer", .str "3"⟩],
   fun u => if u = "U1" then some freshCounters else none, fun _ => none, fun _ => none⟩

/-- A state whose only data row belongs to another user. -/
def c6State : AppState :=
  ⟨[headerRow, ⟨"U2", "Other", "2024-05-17T10:00:00.000Z", "coffee", .num 2⟩],
   fun _ => none, fun _ => none, fun _ => none⟩

/-- State after U1 logs a coffee (price 2) in May 2024. -/
def c7StateA : AppState :=
  logChoice 2 (3/2) "U1" "coffee" "User One" "2024-05-17T10:00:00.000Z" initialState

/-- State after U1 then logs a tea (price 1.5). -/
def c7StateB : AppState :=
  logChoice 2 (3/2) "U1" "tea" "User One" "2024-05-17T11:00:00.000Z" c7StateA

lemma mem_drop_one_of_get (rows : List Row) (j : Nat) (r : Row)
    (hj : rows.get? (j + 1) = some r) : r ∈ rows.drop 1 := by
  cases rows with
  | nil => simp at hj
  | cons a t =>
    simp only [List.get?] at hj
    simpa using List.get?_mem hj

lemma lastIdxFrom_no_match (uid : String) (rows : List Row)
    (h : ∀ r ∈ rows.drop 1, r.userId ≠ uid) :
    ∀ i, lastIdxFrom uid rows i = -1 := by
  intro i
  induction i with
  | zero => rfl
  | succ i ih =>
    unfold lastIdxFrom
    cases hr : rows.get? (i + 1) with
    | none => simpa using ih
    | some r =>
      have : r.userId ≠ uid := h r (mem_drop_one_of_get rows i r hr)
      simp [this, ih]

lemma lastIdxFrom_cases (uid : String) (rows : List Row) (i : Nat) :
    lastIdxFrom uid rows i = -1 ∨
      ∃ (j : Nat) (r : Row), lastIdxFrom uid rows i = (j : Int) ∧ 1 ≤ j ∧
        rows.get? j = some r ∧ r.userId = uid := by
  induction i with
  | zero => exact Or.inl rfl
  | succ i ih =>
    unfold lastIdxFrom
    cases hr : rows.get? (i + 1) with
    | none => simpa using ih
    | some r =>
      by_cases hu : r.userId = uid
      · exact Or.inr ⟨i + 1, r, by simp [hu], by omega, hr, hu⟩
      · simpa [hu] using ih

lemma head_eraseIdx_of_pos {α : Type} (l : List α) (j : Nat) (hj : 1 ≤ j) :
    (l.eraseIdx j).head? = l.head? := by
  cases l with
  | nil => simp
  | cons a t =>
    cases j with
    | zero => omega
    | succ j => simp [List.eraseIdx]

/-- Claim C6: `undoLastChoice` for a user with no matching data row is a
no-op: the whole state (ledger contents, hence row count, and every
in-memory counter) is returned unchanged. -/
theorem claim_C6 (st : AppState) (uid : String)
    (h : ∀ r ∈ st.rows.drop 1, r.userId ≠ uid) :
    revokeLastChoice uid st = some st := by
  unfold revokeLastChoice lastUserRowIndex
  rw [lastIdxFrom_no_match uid st.rows h]
  simp

/-- Witness for C6 at a concrete state: the one data row belongs to U2, so
undo for U1 changes nothing. -/
theorem claim_C6_witness : revokeLastChoice "U1" c6State = some c6State := by
  apply claim_C6
  intro r hr
  simp only [c6State, List.drop, List.mem_singleton] at hr
  subst hr
  decide

/-- Claim C9: `setSettled` changes at most the flag of its own
(monthKey, userId) pair; every other pair reads as before. -/
theorem claim_C9 (ms : String → Option (String → Bool)) (mk uid : String)
    (flag : Bool) (mk2 uid2 : String) (h : mk2 ≠ mk ∨ uid2 ≠ uid) :
    readSettled (setSettled ms mk uid flag) mk2 uid2 = readSettled ms mk2 uid2 := by
  rcases h with h | h
  · unfold setSettled readSettled
    rw [Function.update_noteq h]
  · by_cases hm : mk2 = mk
    · subst hm
      unfold setSettled readSettled
      rw [Function.update_same]
      cases hms : ms mk2 with
      | none => simp [Function.update_noteq h]
      | some inner => simp [Function.update_noteq h]
    · unfold setSettled readSettled
      rw [Function.update_noteq hm]

/-- Witness for C9: setting ("2024-05", "U1") leaves ("2024-06", "U1") and
("2024-05", "U2") at their prior (false) values. -/
theorem claim_C9_witness :
    readSettled (setSettled (fun _ => none) "2024-05" "U1" true) "2024-06" "U1" =
        readSettled (fun _ => none) "2024-06" "U1" ∧
      readSettled (setSettled (fun _ => none) "2024-05" "U1" true) "2024-05" "U2" =
        readSettled (fun _ => none) "2024-05" "U2" :=
  ⟨claim_C9 (fun _ => none) "2024-05" "U1" true "2024-06" "U1" (Or.inl (by decide)),
   claim_C9 (fun _ => none) "2024-05" "U1" true "2024-05" "U2" (Or.inr (by decide))⟩

/-- Claim C10: a successful `undoLastChoice` never touches the row at
position 0: the head of the ledger is preserved, and any deletion happens
at a strictly positive, in-range index. -/
theorem claim_C10 (uid : String) (st st' : AppState)
    (h : revokeLastChoice uid st = some st') :
    st'.rows.head? = st.rows.head? ∧
      (st'.rows = st.rows ∨
        ∃ j, 1 ≤ j ∧ st.rows.get? j ≠ none ∧ st'.rows = st.rows.eraseIdx j) := by
  simp only [revokeLastChoice] at h
  by_cases hpos : 0 < lastUserRowIndex uid st.rows
  · rcases lastIdxFrom_cases uid st.rows (st.rows.length - 1) with hneg | ⟨j, r, hj, hj1, hget, _⟩
    · rw [lastUserRowIndex, hneg] at hpos
      omega
    · rw [if_pos hpos] at h
      cases hc : st.userChoices uid with
      | none => rw [hc] at h; exact absurd h (by simp)
      | some c =>
        rw [hc] at h
        obtain rfl := Option.some.inj h
        have hto : (lastUserRowIndex uid st.rows).toNat = j := by
          rw [lastUserRowIndex, hj]
          exact Int.toNat_natCast j
        refine ⟨?_, Or.inr ⟨j, hj1, by rw [hget]; simp, by simp [hto]⟩⟩
        simp only [hto]
        exact head_eraseIdx_of_pos st.rows j hj1
  · rw [if_neg hpos] at h
    obtain rfl := Option.some.inj h
    exact ⟨rfl, Or.inl rfl⟩

/-- Witness for C10: undo on a state whose only data row belongs to another
user succeeds and preserves the header. -/
theorem claim_C10_witness :
    c6State.rows.head? = c6State.rows.head? ∧
      (c6State.rows = c6State.rows ∨
        ∃ j, 1 ≤ j ∧ c6State.rows.get? j ≠ none ∧ c6State.rows = c6State.rows.eraseIdx j) :=
  claim_C10 "U1" c6State c6State rfl

/-- Claim C4: one reconciler invocation posts exactly one new message and
records a reference carrying the current month key when no reference is
stored or the stored month key differs; it updates the referenced message
in place (reference map unchanged) when a reference with a truthy ts for
the current month key is stored; and no invocation both posts and
updates. -/
theorem claim_C4 (userId monthKey openedChannel newTs : String)
    (refs : String → Option MsgRef) :
    ((refs userId = none ∨ ∃ r, refs userId = some r ∧ r.monthKey ≠ monthKey) →
        (sendOrUpdateControlMessage userId monthKey openedChannel newTs refs).1.countP isPost = 1 ∧
        (sendOrUpdateControlMessage userId monthKey openedChannel newTs refs).1.countP isUpd = 0 ∧
        ∃ ref, (sendOrUpdateControlMessage userId monthKey openedChannel newTs refs).2 userId
            = some ref ∧ ref.monthKey = monthKey ∧ ref.ts = newTs) ∧
      (∀ r, refs userId = some r → r.ts ≠ "" → r.monthKey = monthKey →
        (sendOrUpdateControlMessage userId monthKey openedChannel newTs refs).1.countP isUpd = 1 ∧
        (sendOrUpdateControlMessage userId monthKey openedChannel newTs refs).1.countP isPost = 0 ∧
        (sendOrUpdateControlMessage userId monthKey openedChannel newTs refs).2 = refs) ∧
      ¬(0 < (sendOrUpdateControlMessage userId monthKey openedChannel newTs refs).1.countP isPost ∧
        0 < (sendOrUpdateControlMessage userId monthKey openedChannel newTs refs).1.countP isUpd) := by
  cases hr : refs userId with
  | none =>
    refine ⟨?_, ?_, ?_⟩
    · intro _
      refine ⟨?_, ?_, ⟨openedChannel, newTs, monthKey⟩, ?_, rfl, rfl⟩
      · simp [sendOrUpdateControlMessage, hr, isPost, isUpd]
      · simp [sendOrUpdateControlMessage, hr, isPost, isUpd]
      · simp [sendOrUpdateControlMessage, hr]
    · intro r hrr
      cases hrr
    · simp [sendOrUpdateControlMessage, hr, isPost, isUpd]
  | some r =>
    by_cases hcond : r.ts ≠ "" ∧ r.monthKey = monthKey
    · refine ⟨?_, ?_, ?_⟩
      · intro hpre
        rcases hpre with hpre | ⟨r3, hr3, hmk⟩
        · cases hpre
        · cases Option.some.inj hr3
          exact absurd hcond.2 hmk
      · intro r2 hr2 _ _
        cases Option.some.inj hr2
        by_cases hch : r.channelId = "" <;>
          simp [sendOrUpdateControlMessage, hr, hcond, hch, isPost, isUpd]
      · by_cases hch : r.channelId = "" <;>
          simp [sendOrUpdateControlMessage, hr, hcond, hch, isPost, isUpd]
    · refine ⟨?_, ?_, ?_⟩
      · intro _
        refine ⟨?_, ?_, ?_⟩
        · by_cases hch : r.channelId = "" <;>
            simp [sendOrUpdateControlMessage, hr, hcond, hch, isPost, isUpd]
        · by_cases hch : r.channelId = "" <;>
            simp [sendOrUpdateControlMessage, hr, hcond, hch, isPost, isUpd]
        · by_cases hch : r.channelId = ""
          · exact ⟨⟨openedChannel, newTs, monthKey⟩,
              by simp [sendOrUpdateControlMessage, hr, hcond, hch], rfl, rfl⟩
          · exact ⟨⟨r.channelId, newTs, monthKey⟩,
              by simp [sendOrUpdateControlMessage, hr, hcond, hch], rfl, rfl⟩
      · intro r2 hr2 hts hmk
        cases Option.some.inj hr2
        exact absurd ⟨hts, hmk⟩ hcond
      · by_cases hch : r.channelId = "" <;>
          simp [sendOrUpdateControlMessage, hr, hcond, hch, isPost, isUpd]

/-- Witness for C4: with no stored reference the invocation posts (left
branch), and with a matching stored reference it updates (right branch),
each at a concrete input. -/
theorem claim_C4_witness :
    ((sendOrUpdateControlMessage "U1" "2024-05" "D1" "100.1" (fun _ => none)).1.countP isPost = 1 ∧
      (sendOrUpdateControlMessage "U1" "2024-05" "D1" "100.1" (fun _ => none)).1.countP isUpd = 0 ∧
      ∃ ref, (sendOrUpdateControlMessage "U1" "2024-05" "D1" "100.1" (fun _ => none)).2 "U1"
          = some ref ∧ ref.monthKey = "2024-05" ∧ ref.ts = "100.1") ∧
    ((sendOrUpdateControlMessage "U1" "2024-05" "D1" "100.1"
        (fun u => if u = "U1" then some ⟨"C9", "55.5", "2024-05"⟩ else none)).1.countP isUpd = 1 ∧
      (sendOrUpdateControlMessage "U1" "2024-05" "D1" "100.1"
        (fun u => if u = "U1" then some ⟨"C9", "55.5", "2024-05"⟩ else none)).1.countP isPost = 0 ∧
      (sendOrUpdateControlMessage "U1" "2024-05" "D1" "100.1"
        (fun u => if u = "U1" then some ⟨"C9", "55.5", "2024-05"⟩ else none)).2
        = (fun u => if u = "U1" then some ⟨"C9", "55.5", "2024-05"⟩ else none)) :=
  ⟨(claim_C4 "U1" "2024-05" "D1" "100.1" (fun _ => none)).1 (Or.inl rfl),
   (claim_C4 "U1" "2024-05" "D1" "100.1"
      (fun u => if u = "U1" then some ⟨"C9", "55.5", "2024-05"⟩ else none)).2.1
     ⟨"C9", "55.5", "2024-05"⟩ rfl (by decide) rfl⟩

lemma broadcastLoop_eq (fails : String → Bool) (l : List DirectoryUser) :
    broadcastLoop fails l =
      ((l.filter (fun u => !fails u.id)).map DirectoryUser.id,
       (l.filter (fun u => fails u.id)).map DirectoryUser.id) := by
  induction l with
  | nil => rfl
  | cons u rest ih =>
    by_cases hf : fails u.id
    · simp [broadcastLoop, hf, ih]
    · simp [broadcastLoop, hf, ih]

/-- Claim C8: the broadcast attempts the reconciler exactly for the
eligible (in particular non-bot, non-deleted) directory members; a failing
member is logged and does not stop the loop, so the successful ids are the
eligible non-failing members and the logged failures the eligible failing
ones, in order; on a directory of three eligible users where exactly U2
fails, U1 and U3 are messaged and exactly the one failure is logged. -/
theorem claim_C8 (members : List DirectoryUser) (fails : String → Bool) :
    broadcastForCurrentMonth members fails =
      (((members.filter broadcastEligible).filter (fun u => !fails u.id)).map DirectoryUser.id,
       ((members.filter broadcastEligible).filter (fun u => fails u.id)).map DirectoryUser.id) ∧
    (∀ uid, (uid ∈ (broadcastForCurrentMonth members fails).1 ∨
        uid ∈ (broadcastForCurrentMonth members fails).2) →
      ∃ u, u ∈ members ∧ u.id = uid ∧ u.isBot = false ∧ u.deleted = false) ∧
    broadcastForCurrentMonth threeUsers (fun uid => uid == "U2") = (["U1", "U3"], ["U2"]) := by
  refine ⟨broadcastLoop_eq fails (members.filter broadcastEligible), ?_, ?_⟩
  · intro uid hmem
    rw [broadcastForCurrentMonth, broadcastLoop_eq] at hmem
    have hu : ∃ u, u ∈ members.filter broadcastEligible ∧ u.id = uid := by
      rcases hmem with hmem | hmem
      · rcases List.mem_map.mp hmem with ⟨u, hu1, hu2⟩
        exact ⟨u, List.mem_of_mem_filter hu1, hu2⟩
      · rcases List.mem_map.mp hmem with ⟨u, hu1, hu2⟩
        exact ⟨u, List.mem_of_mem_filter hu1, hu2⟩
    rcases hu with ⟨u, hu1, hu2⟩
    have h1 : u ∈ members := List.mem_of_mem_filter hu1
    have h2 : broadcastEligible u = true := List.of_mem_filter hu1
    simp only [broadcastEligible, Bool.not_eq_true', decide_eq_true_eq] at h2
    exact ⟨u, h1, hu2, h2.1, h2.2.1⟩
  · rw [broadcastForCurrentMonth, broadcastLoop_eq]
    decide

/-- Witness for C8: instantiating the membership conjunct at U1, who is
messaged in the three-user scenario. -/
theorem claim_C8_witness :
    ∃ u, u ∈ threeUsers ∧ u.id = "U1" ∧ u.isBot = false ∧ u.deleted = false :=
  (claim_C8 threeUsers (fun uid => uid == "U2")).2.1 "U1" (Or.inl (by decide))

lemma summary_foldl (uid : String) (y : Int) (m : Nat) (l : List Row) (acc : Summary) :
    l.foldl (summaryStep uid y m) acc =
      ⟨acc.coffee + l.countP (fun r => rowMatches uid y m r && decide (r.choice = "coffee")),
       acc.tea + l.countP (fun r => rowMatches uid y m r && decide (r.choice = "tea")),
       acc.amount + ((l.filter (rowMatches uid y m)).map rowPrice).sum⟩ := by
  induction l generalizing acc with
  | nil => simp
  | cons r t ih =>
    rw [List.foldl_cons, ih]
    by_cases hu : r.userId = uid
    · cases hd : parseDateYM r.dateStr with
      | none =>
        have hp : rowMatches uid y m r = false := by simp [rowMatches, rowInMonth, hd]
        simp [summaryStep, hu, hd, hp, List.countP_cons, List.filter_cons]
      | some ym =>
        by_cases hym : ym.1 = y ∧ ym.2 = m
        · have hp : rowMatches uid y m r = true := by
            simp [rowMatches, rowInMonth, hd, hu, hym.1, hym.2]
          by_cases hc1 : r.choice = "coffee" <;> by_cases hc2 : r.choice = "tea"
          · exact absurd (hc1 ▸ hc2) (by decide)
          · simp [summaryStep, hu, hd, hym, hp, hc1, hc2, List.countP_cons,
              List.filter_cons, Summary.mk.injEq]
            exact ⟨by omega, by ring⟩
          · simp [summaryStep, hu, hd, hym, hp, hc1, hc2, List.countP_cons,
              List.filter_cons, Summary.mk.injEq]
            exact ⟨by omega, by ring⟩
          · simp [summaryStep, hu, hd, hym, hp, hc1, hc2, List.countP_cons,
              List.filter_cons, Summary.mk.injEq]
            ring
        · have hp : rowMatches uid y m r = false := by
            simp only [rowMatches, rowInMonth, hd, Bool.and_eq_false_iff]
            right
            rcases Decidable.not_and_iff_or_not.mp hym with hy | hm2
            · simp [hy]
            · simp [hm2]
          have hstep : summaryStep uid y m acc r = acc := by
            simp [summaryStep, hu, hd, hym]
          simp [hstep, hp, List.countP_cons, List.filter_cons]
    · have hp : rowMatches uid y m r = false := by simp [rowMatches, hu]
      simp [summaryStep, hu, hp, List.countP_cons, List.filter_cons]

/-- Claim C2: `getUserMonthlySummary` returns exactly the per-kind counts
of the post-header rows of this user dated in the reference month, and the
price sum over all such rows (any kind); mismatched-user and
invalid-date rows are skipped (they fail `rowMatches`); a string price
that does not parse contributes 0 through `rowPrice`. -/
theorem claim_C2 (uid : String) (y : Int) (m : Nat) (rows : List Row) :
    getUserMonthlySummary uid y m rows =
      ⟨(rows.drop 1).countP (fun r => rowMatches uid y m r && decide (r.choice = "coffee")),
       (rows.drop 1).countP (fun r => rowMatches uid y m r && decide (r.choice = "tea")),
       (((rows.drop 1).filter (rowMatches uid y m)).map rowPrice).sum⟩ ∧
    ∀ (r : Row) (s : String), r.price = Cell.str s → s ≠ "" → parseFloat s = none →
      rowPrice r = 0 := by
  constructor
  · rw [getUserMonthlySummary, summary_foldl]
    simp
  · intro r s hps hs hnone
    rw [rowPrice, hps]
    simp [hs, hnone]

/-- Witness for C2: an unparseable string price contributes 0. -/
theorem claim_C2_witness :
    rowPrice ⟨"U1", "N", "2024-05-17T10:00:00.000Z", "coffee", .str "abc"⟩ = 0 :=
  (claim_C2 "U1" 2024 4 []).2 ⟨"U1", "N", "2024-05-17T10:00:00.000Z", "coffee", .str "abc"⟩
    "abc" rfl (by decide) (by decide)

lemma rowCountKind_append (rows1 rows2 : List Row) (uid k : String) :
    rowCountKind (rows1 ++ rows2) uid k = rowCountKind rows1 uid k + rowCountKind rows2 uid k :=
  List.countP_append ..

lemma rowCountKind_headerRow (uid k : String) (hk : k = "coffee" ∨ k = "tea") :
    rowCountKind [headerRow] uid k = 0 := by
  have hne : headerRow.choice ≠ k := by
    rcases hk with hk | hk <;> rw [hk] <;> decide
  simp [rowCountKind, hne]

lemma countP_of_eraseIdx (p : Row → Bool) :
    ∀ (l : List Row) (i : Nat) (r : Row), l.get? i = some r →
      l.countP p = (l.eraseIdx i).countP p + (if p r then 1 else 0) := by
  intro l
  induction l with
  | nil => intro i r h; simp at h
  | cons a t ih =>
    intro i r h
    cases i with
    | zero =>
      simp only [List.get?] at h
      cases h
      simp [List.eraseIdx, List.countP_cons]
    | succ i =>
      simp only [List.get?] at h
      have := ih i r h
      simp [List.eraseIdx, List.countP_cons, this]
      omega

lemma sessionInv_initial (uid : String) : sessionInv initialState uid := by
  refine ⟨Or.inl rfl, ?_, ?_⟩
  · intro r hr
    simp [initialState] at hr
  · simp [countersMatch, initialState, rowCountKind]

lemma ensureHeaderRow_of_inv (rows : List Row)
    (h : rows = [] ∨ ∃ body, rows = headerRow :: body) :
    ensureHeaderRow rows = headerRow :: rows.drop 1 := by
  rcases h with h | ⟨body, h⟩
  · subst h; rfl
  · subst h
    have hne : rowIsEmpty headerRow = false := by decide
    simp [ensureHeaderRow, hne]

lemma rowCountKind_drop_inv (rows : List Row) (uid k : String)
    (h : rows = [] ∨ ∃ body, rows = headerRow :: body) (hk : k = "coffee" ∨ k = "tea") :
    rowCountKind rows uid k = rowCountKind (rows.drop 1) uid k := by
  rcases h with h | ⟨body, h⟩
  · subst h; rfl
  · subst h
    have hne : headerRow.choice ≠ k := by
      rcases hk with hk | hk <;> subst hk <;> decide
    simp [rowCountKind, List.countP_cons, hne]

lemma countersMatch_some (st : AppState) (uid : String) (c : ChoiceCounters)
    (h : st.userChoices uid = some c) :
    countersMatch st uid ↔
      (c "coffee" = .num (rowCountKind st.rows uid "coffee") ∧
       c "tea" = .num (rowCountKind st.rows uid "tea")) := by
  unfold countersMatch
  rw [h]

lemma countersMatch_none (st : AppState) (uid : String)
    (h : st.userChoices uid = none) :
    countersMatch st uid ↔
      (rowCountKind st.rows uid "coffee" = 0 ∧ rowCountKind st.rows uid "tea" = 0) := by
  unfold countersMatch
  rw [h]

lemma sessionInv_logChoice (cp tp : ℚ) (uid un di : String) (k : Kind) (st : AppState)
    (h : sessionInv st uid) :
    sessionInv (logChoice cp tp uid (kindStr k) un di st) uid := by
  obtain ⟨h1, h2, h3⟩ := h
  have hens : ensureHeaderRow st.rows = headerRow :: st.rows.drop 1 :=
    ensureHeaderRow_of_inv st.rows h1
  have hkind : kindStr k = "coffee" ∨ kindStr k = "tea" := by
    cases k
    · exact Or.inl rfl
    · exact Or.inr rfl
  have hrows : (logChoice cp tp uid (kindStr k) un di st).rows =
      headerRow :: (st.rows.drop 1 ++
        [(⟨uid, un, di, kindStr k, .num (if kindStr k = "coffee" then cp else tp)⟩ : Row)]) := by
    simp [logChoice, hens]
  have hucnew : (logChoice cp tp uid (kindStr k) un di st).userChoices uid =
      some (Function.update ((st.userChoices uid).getD freshCounters) (kindStr k)
        (jsIncr (((st.userChoices uid).getD freshCounters) (kindStr k)))) := by
    simp [logChoice]
  have hcc : ∀ kk, kk = "coffee" ∨ kk = "tea" →
      rowCountKind (logChoice cp tp uid (kindStr k) un di st).rows uid kk =
        rowCountKind st.rows uid kk + (if kindStr k = kk then 1 else 0) := by
    intro kk hkk
    rw [hrows, rowCountKind_drop_inv st.rows uid kk h1 hkk]
    have hne : headerRow.choice ≠ kk := by
      rcases hkk with hkk | hkk <;> subst hkk <;> decide
    simp only [rowCountKind, List.countP_cons, List.countP_append]
    by_cases hek : kindStr k = kk
    · simp [hne, hek]
    · simp [hne, hek]
  have hc0 : ∀ cnt : Nat, (↑(cnt + 1) : ℚ) = ↑cnt + 1 := by
    intro cnt
    push_cast
    ring
  refine ⟨?_, ?_, ?_⟩
  · right
    exact ⟨st.rows.drop 1 ++
      [(⟨uid, un, di, kindStr k, .num (if kindStr k = "coffee" then cp else tp)⟩ : Row)], hrows⟩
  · intro r hr hruid
    have hr2 : r ∈ st.rows.drop 1 ++
        [(⟨uid, un, di, kindStr k, .num (if kindStr k = "coffee" then cp else tp)⟩ : Row)] := by
      rw [hrows] at hr
      simpa using hr
    rcases List.mem_append.mp hr2 with hr3 | hr3
    · exact h2 r hr3 hruid
    · simp only [List.mem_singleton] at hr3
      subst hr3
      simpa using hkind
  · rw [countersMatch_some _ uid _ hucnew]
    have hglc : ∀ (c0 : ChoiceCounters) (kk : String),
        (Function.update c0 (kindStr k) (jsIncr (c0 (kindStr k)))) kk
        = if kindStr k = kk then jsIncr (c0 kk) else c0 kk := by
      intro c0 kk
      by_cases hek : kindStr k = kk
      · subst hek
        simp [Function.update_same]
      · rw [Function.update_noteq (fun hy => hek hy.symm)]
        simp [hek]
    cases hc : st.userChoices uid with
    | none =>
      have h30 := (countersMatch_none st uid hc).mp h3
      constructor
      · rw [hglc _ "coffee", hcc "coffee" (Or.inl rfl), h30.1]
        rcases hkind with hk1 | hk1 <;> rw [hk1] <;> simp [freshCounters, jsIncr]
      · rw [hglc _ "tea", hcc "tea" (Or.inr rfl), h30.2]
        rcases hkind with hk1 | hk1 <;> rw [hk1] <;> simp [freshCounters, jsIncr]
    | some c =>
      have h3s := (countersMatch_some st uid c hc).mp h3
      constructor
      · rw [hglc _ "coffee", hcc "coffee" (Or.inl rfl)]
        rcases hkind with hk1 | hk1 <;> rw [hk1] <;>
          simp [jsIncr, h3s.1, hc0]
      · rw [hglc _ "tea", hcc "tea" (Or.inr rfl)]
        rcases hkind with hk1 | hk1 <;> rw [hk1] <;>
          simp [jsIncr, h3s.2, hc0]

lemma jsDecFloor_num_of_pos (cnt : Nat) (hle : 1 ≤ cnt) :
    jsDecFloor (.num (cnt : ℚ)) = .num ((cnt - 1 : ℕ) : ℚ) := by
  show JSNum.num (max 0 ((cnt : ℚ) - 1)) = .num ((cnt - 1 : ℕ) : ℚ)
  rw [Nat.cast_sub hle, Nat.cast_one, max_eq_right]
  exact sub_nonneg.mpr (by exact_mod_cast hle)

lemma sessionInv_revoke (uid : String) (st : AppState) (h : sessionInv st uid) :
    ∃ st', revokeLastChoice uid st = some st' ∧ sessionInv st' uid := by
  obtain ⟨h1, h2, h3⟩ := h
  by_cases hpos : 0 < lastUserRowIndex uid st.rows
  · rcases lastIdxFrom_cases uid st.rows (st.rows.length - 1) with hneg |
      ⟨j, r, hj, hj1, hget, huid⟩
    · rw [lastUserRowIndex, hneg] at hpos
      omega
    · have hli : lastUserRowIndex uid st.rows = (j : Int) := by rw [lastUserRowIndex, hj]
      have hto : (lastUserRowIndex uid st.rows).toNat = j := by
        rw [hli]
        exact Int.toNat_natCast j
      obtain ⟨j0, rfl⟩ : ∃ j0, j = j0 + 1 := ⟨j - 1, by omega⟩
      have hmem1 : r ∈ st.rows.drop 1 := mem_drop_one_of_get st.rows j0 r hget
      have hkr : r.choice = "coffee" ∨ r.choice = "tea" := h2 r hmem1 huid
      have hcntpos : 0 < rowCountKind st.rows uid r.choice := by
        rw [rowCountKind]
        refine List.countP_pos_iff.mpr ⟨r, List.get?_mem hget, ?_⟩
        simp [huid]
      have hlc : ((st.rows.get? ((lastUserRowIndex uid st.rows).toNat)).map Row.choice).getD ""
          = r.choice := by
        rw [hto, hget]
        rfl
      cases hc : st.userChoices uid with
      | none =>
        exfalso
        have h30 := (countersMatch_none st uid hc).mp h3
        rcases hkr with hk | hk <;> rw [hk] at hcntpos
        · rw [h30.1] at hcntpos; omega
        · rw [h30.2] at hcntpos; omega
      | some c =>
        have h3s := (countersMatch_some st uid c hc).mp h3
        have hrev : revokeLastChoice uid st = some
            { st with
              rows := st.rows.eraseIdx (j0 + 1),
              userChoices := Function.update st.userChoices uid
                (some (Function.update c r.choice (jsDecFloor (c r.choice)))) } := by
          simp only [revokeLastChoice]
          rw [if_pos hpos, hc, hlc, hto]
        have hbody : ∃ body, st.rows = headerRow :: body := by
          rcases h1 with h1 | h1
          · rw [h1] at hget
            simp at hget
          · exact h1
        obtain ⟨body, hbodyEq⟩ := hbody
        have hcount : ∀ kk, rowCountKind st.rows uid kk =
            rowCountKind (st.rows.eraseIdx (j0 + 1)) uid kk +
              (if r.choice = kk then 1 else 0) := by
          intro kk
          simp only [rowCountKind]
          rw [countP_of_eraseIdx _ st.rows (j0 + 1) r hget]
          by_cases hek : r.choice = kk
          · simp [huid, hek]
          · simp [huid, hek]
        refine ⟨_, hrev, ?_, ?_, ?_⟩
        · right
          refine ⟨body.eraseIdx j0, ?_⟩
          rw [hbodyEq]
          rfl
        · intro r2 hr2 hu2
          have hsub : (st.rows.eraseIdx (j0 + 1)).drop 1 = body.eraseIdx j0 := by
            rw [hbodyEq]
            rfl
          rw [hsub] at hr2
          have hr2b : r2 ∈ st.rows.drop 1 := by
            rw [hbodyEq]
            exact (List.eraseIdx_sublist body j0).subset hr2
          exact h2 r2 hr2b hu2
        · rw [countersMatch_some _ uid (Function.update c r.choice (jsDecFloor (c r.choice)))
            (by simp)]
          have hcnt1 : 1 ≤ rowCountKind st.rows uid r.choice := hcntpos
          rcases hkr with hk | hk
          · constructor
            · dsimp only
              rw [hk, Function.update_same, h3s.1,
                jsDecFloor_num_of_pos _ (hk ▸ hcnt1)]
              have hc2 := hcount "coffee"
              rw [if_pos hk] at hc2
              congr 1
              exact_mod_cast (by omega : rowCountKind st.rows uid "coffee" - 1 =
                rowCountKind (st.rows.eraseIdx (j0 + 1)) uid "coffee")
            · dsimp only
              rw [hk, Function.update_noteq (by decide : ("tea" : String) ≠ "coffee"), h3s.2]
              have hc2 := hcount "tea"
              rw [hk, if_neg (by decide : ¬("coffee" : String) = "tea")] at hc2
              congr 1
              exact_mod_cast (by omega : rowCountKind st.rows uid "tea" =
                rowCountKind (st.rows.eraseIdx (j0 + 1)) uid "tea")
          · constructor
            · dsimp only
              rw [hk, Function.update_noteq (by decide : ("coffee" : String) ≠ "tea"), h3s.1]
              have hc2 := hcount "coffee"
              rw [hk, if_neg (by decide : ¬("tea" : String) = "coffee")] at hc2
              congr 1
              exact_mod_cast (by omega : rowCountKind st.rows uid "coffee" =
                rowCountKind (st.rows.eraseIdx (j0 + 1)) uid "coffee")
            · dsimp only
              rw [hk, Function.update_same, h3s.2,
                jsDecFloor_num_of_pos _ (hk ▸ hcnt1)]
              have hc2 := hcount "tea"
              rw [if_pos hk] at hc2
              congr 1
              exact_mod_cast (by omega : rowCountKind st.rows uid "tea" - 1 =
                rowCountKind (st.rows.eraseIdx (j0 + 1)) uid "tea")
  · refine ⟨st, ?_, ⟨h1, h2, h3⟩⟩
    simp only [revokeLastChoice]
    rw [if_neg hpos]

lemma sessionInv_runOps (cp tp : ℚ) (uid : String) (ops : List Op) (st : AppState)
    (h : sessionInv st uid) :
    ∃ st', runOps cp tp uid st ops = some st' ∧ sessionInv st' uid := by
  induction ops generalizing st with
  | nil => exact ⟨st, rfl, h⟩
  | cons op rest ih =>
    cases op with
    | record k un di =>
      obtain ⟨st', hrun, hinv⟩ :=
        ih (logChoice cp tp uid (kindStr k) un di st) (sessionInv_logChoice cp tp uid un di k st h)
      exact ⟨st', by simp [runOps, runOp, hrun], hinv⟩
    | undo =>
      obtain ⟨st1, hrev, hinv1⟩ := sessionInv_revoke uid st h
      obtain ⟨st', hrun, hinv⟩ := ih st1 hinv1
      exact ⟨st', by simp [runOps, runOp, hrev, hrun], hinv⟩

/-- Claim C1: every serialized sequence of recordChoice/undoLastChoice calls
of a single user, from empty ledger and empty in-memory state, runs without
error and ends (hence, applied to any prefix, also stands after every call)
with the in-memory counter of each kind in coffee/tea equal to the number
of ledger rows of that kind for that user. -/
theorem claim_C1 (coffeePrice teaPrice : ℚ) (uid : String) (ops : List Op) :
    ∃ st, runOps coffeePrice teaPrice uid initialState ops = some st ∧
      countersMatch st uid := by
  obtain ⟨st, hrun, hinv⟩ :=
    sessionInv_runOps coffeePrice teaPrice uid ops initialState (sessionInv_initial uid)
  exact ⟨st, hrun, hinv.2.2⟩

/-- Claim C5: when the most recent ledger row of a user (found at a
positive index by the backwards scan) carries a choice kind other than
coffee or tea, `undoLastChoice` still deletes exactly that row, and the
user's coffee and tea counters are unchanged (the write lands on the
unrecognized key only). The user's counter object must exist, as the code
dereferences `userChoices[userId]` unconditionally in this branch. -/
theorem claim_C5 (st : AppState) (uid : String) (c : ChoiceCounters) (j : Nat) (r : Row)
    (hc : st.userChoices uid = some c)
    (hj : lastUserRowIndex uid st.rows = (j : Int)) (hj1 : 1 ≤ j)
    (hr : st.rows.get? j = some r)
    (hk1 : r.choice ≠ "coffee") (hk2 : r.choice ≠ "tea") :
    ∃ st', revokeLastChoice uid st = some st' ∧
      st'.rows = st.rows.eraseIdx j ∧
      ∃ c2, st'.userChoices uid = some c2 ∧
        c2 "coffee" = c "coffee" ∧ c2 "tea" = c "tea" := by
  have hpos : 0 < lastUserRowIndex uid st.rows := by
    rw [hj]
    omega
  have hto : (lastUserRowIndex uid st.rows).toNat = j := by
    rw [hj]
    exact Int.toNat_natCast j
  have hlc : ((st.rows.get? ((lastUserRowIndex uid st.rows).toNat)).map Row.choice).getD ""
      = r.choice := by
    rw [hto, hr]
    rfl
  have hrev : revokeLastChoice uid st = some
      { st with
        rows := st.rows.eraseIdx j,
        userChoices := Function.update st.userChoices uid
          (some (Function.update c r.choice (jsDecFloor (c r.choice)))) } := by
    simp only [revokeLastChoice]
    rw [if_pos hpos, hc, hlc, hto]
  refine ⟨_, hrev, rfl, Function.update c r.choice (jsDecFloor (c r.choice)), by simp, ?_, ?_⟩
  · rw [Function.update_noteq (Ne.symm hk1)]
  · rw [Function.update_noteq (Ne.symm hk2)]

/-- Witness for C5 at a concrete state: undoing a "beer" row deletes it and
leaves the coffee/tea counters of the fresh counter object unchanged. -/
theorem claim_C5_witness :
    ∃ st', revokeLastChoice "U1" c5State = some st' ∧
      st'.rows = c5State.rows.eraseIdx 1 ∧
      ∃ c2, st'.userChoices "U1" = some c2 ∧
        c2 "coffee" = freshCounters "coffee" ∧ c2 "tea" = freshCounters "tea" :=
  claim_C5 c5State "U1" freshCounters 1
    ⟨"U1", "User One", "2024-05-17T10:00:00.000Z", "beer", .str "3"⟩
    rfl (by decide) (by decide) (by decide) (by decide) (by decide)

/-- Claim C3 fails on the code: the `/monthly_tally` aggregation reads no
date cell and applies no month filter, so on a ledger holding one April
2024 coffee row it bills U1 one coffee, while `getUserMonthlySummary`
evaluated at the May 2024 reference date (the same grouping the spec says
the tally performs) yields zero. -/
theorem claim_C3_divergence :
    getUserMonthlySummary "U1" 2024 4 tallyBugRows = ⟨0, 0, 0⟩ ∧
    ∃ e, monthlyTally tallyBugRows "U1" = some e ∧
      e "coffee" = .num 1 ∧ e "tea" = .num 0 ∧ e "amount" = .num 2 := by
  constructor
  · have hpd : parseDateYM "2024-04-15T00:00:00.000Z" = some (2024, 3) := by decide
    simp [tallyBugRows, getUserMonthlySummary, summaryStep, hpd]
  · have hne1 : ("coffee" : String) ≠ "amount" := by decide
    have hne2 : ("tea" : String) ≠ "amount" := by decide
    have hne3 : ("tea" : String) ≠ "coffee" := by decide
    have hne4 : ("amount" : String) ≠ "coffee" := by decide
    refine ⟨_, rfl, ?_, ?_, ?_⟩ <;>
      simp [monthlyTally, tallyRow, tallyInit, jsIncr, jsAdd, rowPrice,
        Function.update_apply, hne1, hne2, hne3, hne4]

/-- Claim C7: with coffee priced 2.00 and tea 1.50, after U1 logs a coffee
then a tea in May 2024 the monthly summary is coffee 1, tea 1, amount 3.50;
one `undoLastChoice` removes the tea row and the summary becomes coffee 1,
tea 0, amount 2.00. -/
theorem claim_C7 :
    getUserMonthlySummary "U1" 2024 4 c7StateB.rows = ⟨1, 1, 7/2⟩ ∧
    ∃ st3, revokeLastChoice "U1" c7StateB = some st3 ∧
      st3.rows = [headerRow,
        ⟨"U1", "User One", "2024-05-17T10:00:00.000Z", "coffee", .num 2⟩] ∧
      getUserMonthlySummary "U1" 2024 4 st3.rows = ⟨1, 0, 2⟩ := by
  have hpd1 : parseDateYM "2024-05-17T10:00:00.000Z" = some (2024, 4) := by decide
  have hpd2 : parseDateYM "2024-05-17T11:00:00.000Z" = some (2024, 4) := by decide
  have hempty : rowIsEmpty headerRow = false := by decide
  have hrows : c7StateB.rows = [headerRow,
      ⟨"U1", "User One", "2024-05-17T10:00:00.000Z", "coffee", .num 2⟩,
      ⟨"U1", "User One", "2024-05-17T11:00:00.000Z", "tea", .num (3/2)⟩] := by
    simp [c7StateB, c7StateA, logChoice, initialState, ensureHeaderRow, hempty]
  have hsum2 : getUserMonthlySummary "U1" 2024 4 [headerRow,
      (⟨"U1", "User One", "2024-05-17T10:00:00.000Z", "coffee", .num 2⟩ : Row)] = ⟨1, 0, 2⟩ := by
    simp [getUserMonthlySummary, summaryStep, hpd1, rowPrice]
  have hmap : (revokeLastChoice "U1" c7StateB).map (fun st3 => st3.rows)
      = some [headerRow,
        ⟨"U1", "User One", "2024-05-17T10:00:00.000Z", "coffee", .num 2⟩] := rfl
  constructor
  · rw [hrows]
    simp [getUserMonthlySummary, summaryStep, hpd1, hpd2, rowPrice, Summary.mk.injEq]
    norm_num
  · cases hcase : revokeLastChoice "U1" c7StateB with
    | none =>
      rw [hcase] at hmap
      simp at hmap
    | some st3 =>
      rw [hcase] at hmap
      simp only [Option.map_some'] at hmap
      have hr3 : st3.rows = [headerRow,
          ⟨"U1", "User One", "2024-05-17T10:00:00.000Z", "coffee", .num 2⟩] :=
        Option.some.inj hmap
      exact ⟨st3, rfl, hr3, by rw [hr3]; exact hsum2⟩
